import Mathlib

/-!
# github-releases-notifier: the tag checker (`tagchecker.go`)

A shallow embedding of `Checker.query` and `Checker.Run` and the properties of
the polling / change-detection loop.

Modelling conventions

* Go strings are Lean `String`s.  `strings.Split(repoName, "/")` is embedded for a
  one-character separator, which is the only way the source calls it.
* `githubql.ID` is Go's `interface{}`; the type assertion `x.(string)` succeeds
  exactly on the `str` constructor of `githubql_ID`.
* `githubql.URI` embeds a `*url.URL`; a nil pointer is `none`, and dereferencing
  it is a run-time panic.
* Go's `error` values are kept structured (`QueryError`) instead of being
  rendered to their message text.
* The remote service is an oracle `Client`: the answer of `c.client.Query` to
  the `i`-th call made during the run, for the variables `owner` and `name`
  (a timeout of the 5 second context is one of the possible error answers).
* Effects are recorded in a trace of `Action`s in program order: calls of
  `c.query` with their results, log records, sends on the output channel and
  sleeps.  The content of the channel is the projection `chan` of the trace
  (sends are assumed not to block: the consumer drains the channel).
* A run-time panic ends the run: `RunOutcome.panicked` keeps the world in which
  it happened.
* `for { ... }` never returns; `Checker.Run` takes the number of cycles to
  observe.
-/

namespace TagChecker

/-! ## Data model -/

/-- Modelled from the spec: the `Tag` struct, declared outside `tagchecker.go`;
the source uses its fields `ID` and `Name`, both strings. -/
structure Tag where
  ID : String
  Name : String
deriving DecidableEq

/-- Modelled from the spec: the `Repository` struct (the spec's `RepositoryState`),
declared outside `tagchecker.go`; the source fills the fields `ID`, `Name`,
`Owner`, `Description`, `URL` and `Tag`.  The URL value is kept as a string. -/
structure Repository where
  ID : String
  Name : String
  Owner : String
  Description : String
  URL : String
  Tag : Tag
deriving DecidableEq

/-- Go's `interface{}` value behind `githubql.ID`, as the JSON decoder can
produce it: only `str` passes the type assertion `.(string)`. -/
inductive githubql_ID where
  | str (s : String)
  | num (n : Int)
  | bool (b : Bool)
  | null
deriving DecidableEq

/-- `Refs.Edges[i].Node` of the query struct. -/
structure Node where
  ID : githubql_ID
  Name : String
deriving DecidableEq

/-- One element of `Refs.Edges`. -/
structure Edge where
  Node : Node
deriving DecidableEq

/-- The `Refs` member of the query struct. -/
structure Refs where
  Edges : List Edge
deriving DecidableEq

/-- The `Repository` member of the query struct, as decoded from the remote
answer.  `URL` is the pointer inside `githubql.URI` (`none` is nil). -/
structure QueryRepository where
  ID : githubql_ID
  Name : String
  Description : String
  URL : Option String
  Refs : Refs
deriving DecidableEq

/-- The local `query` struct of `Checker.query` after `c.client.Query` filled it. -/
structure Query where
  Repository : QueryRepository
deriving DecidableEq

/-- The errors `Checker.query` returns. -/
inductive QueryError where
  /-- the error of `c.client.Query`, returned as it is -/
  | client (e : String)
  /-- "can't convert repository id to string: %v" -/
  | repositoryID (v : githubql_ID)
  /-- "can't find any tags for %s/%s" -/
  | noTags (owner name : String)
  /-- "can't convert tag id to string: %v" -/
  | tagID (v : githubql_ID)
deriving DecidableEq

/-- What a call of `Checker.query` does: it returns `(r, nil)`, it returns
`(Repository{}, e)`, or it panics on the nil `URL` pointer. -/
inductive QueryOutcome where
  | ok (r : Repository)
  | err (e : QueryError)
  | panic
deriving DecidableEq

/-- A call of `Checker.query` that returns, with a Repository or an error. -/
def QueryOutcome.returns : QueryOutcome → Bool
  | .panic => false
  | _ => true

/-- The remote service: the answer of `c.client.Query` to the `i`-th call of the
run (counted from 0) with variables `owner` and `name`. -/
abbrev Client := Nat → String → String → Except String Query

/-! ## `Checker.query` -/

/-- `func (c *Checker) query(owner, name string) (Repository, error)`, given the
answer `resp` of `c.client.Query`. -/
def Checker.query (owner name : String) (resp : Except String Query) : QueryOutcome :=
  match resp with
  | .error e => .err (.client e)
  | .ok query =>
    match query.Repository.ID with
    | .str repositoryID =>
      match query.Repository.Refs.Edges with
      | [] => .err (.noTags owner name)
      | e0 :: _ =>
        let latestTag := e0.Node
        match latestTag.ID with
        | .str tagID =>
          match query.Repository.URL with
          | none => .panic
          | some url =>
            .ok { ID := repositoryID
                  Name := query.Repository.Name
                  Owner := owner
                  Description := query.Repository.Description
                  URL := url
                  Tag := { ID := tagID, Name := latestTag.Name } }
        | v => .err (.tagID v)
    | v => .err (.repositoryID v)

/-! ## `Checker.Run` -/

/-- The pieces of a character list between the occurrences of `sep`. -/
def splitChars (sep : Char) : List Char → List (List Char)
  | [] => [[]]
  | c :: cs =>
    if c = sep then [] :: splitChars sep cs
    else
      match splitChars sep cs with
      | [] => [[c]]
      | p :: ps => (c :: p) :: ps

/-- `strings.Split(s, sep)` for a one-character separator: the substrings of `s`
between the occurrences of `sep`, one more than there are occurrences. -/
def strings_Split (s : String) (sep : Char) : List String :=
  (splitChars sep s.data).map String.mk

/-- The map `c.tags`: identifier to stored Repository, `none` when the key is
absent. -/
abbrev StateTable := String → Option Repository

/-- `make(map[string]Repository)`. -/
def StateTable.make : StateTable := fun _ => none

/-- The assignment `m[key] = r`. -/
def StateTable.set (m : StateTable) (key : String) (r : Repository) : StateTable :=
  fun k => if k = key then some r else m k

/-- The `Checker` struct; a nil `tags` map is `none`.  The logger and the client
are the trace and the `Client` oracle. -/
structure Checker where
  tags : Option StateTable

/-- One observable effect of `Checker.Run`. -/
inductive Action where
  /-- `c.query(owner, name)` was called while processing `repoName`, with its
  outcome -/
  | query (repoName owner name : String) (result : QueryOutcome)
  /-- `level.Warn(...).Log("msg", "failed to query the repository's tags", ...)` -/
  | warn (owner name : String) (err : QueryError)
  /-- `level.Debug(...).Log("msg", "no new tag for repository", ...)` -/
  | debug (owner name : String)
  /-- `tags <- nextRepo`, executed while processing `repoName` -/
  | send (repoName : String) (r : Repository)
  /-- `time.Sleep(interval)` -/
  | sleep (interval : Nat)
deriving DecidableEq

/-- The state of a run: the map `c.tags` and the effects so far, oldest first. -/
structure World where
  tags : StateTable
  trace : List Action

/-- The calls of `c.query` in a trace: identifier processed, owner, name. -/
def calls (t : List Action) : List (String × String × String) :=
  t.filterMap fun a =>
    match a with
    | .query repoName owner name _ => some (repoName, owner, name)
    | _ => none

/-- The events sent on the output channel, oldest first. -/
def chan (t : List Action) : List Repository :=
  t.filterMap fun a =>
    match a with
    | .send _ r => some r
    | _ => none

/-- The identifiers whose processing sent the events of `chan`, in the same
order. -/
def sentFor (t : List Action) : List String :=
  t.filterMap fun a =>
    match a with
    | .send repoName _ => some repoName
    | _ => none

/-- The successful observation recorded by an action for identifier `X`. -/
def Action.observed (X : String) : Action → Option Repository
  | .query repoName _ _ (.ok r) => if repoName = X then some r else none
  | _ => none

/-- The most recent successful observation of `X` in a trace. -/
def lastObserved (t : List Action) (X : String) : Option Repository :=
  t.reverse.findSome? (Action.observed X)

/-- Where a run stands: still in the loop, or ended by a run-time panic. -/
inductive RunOutcome where
  | running (w : World)
  | panicked (w : World)

/-- The world of an outcome. -/
def RunOutcome.world : RunOutcome → World
  | .running w => w
  | .panicked w => w

/-- The loop is still running. -/
def RunOutcome.isRunning : RunOutcome → Bool
  | .running _ => true
  | .panicked _ => false

/-- The body of `for _, repoName := range repositories`, for one `repoName`. -/
def Checker.Run_body (client : Client) (w : World) (repoName : String) : RunOutcome :=
  match strings_Split repoName '/' with
  | owner :: name :: _ =>
    let result := Checker.query owner name (client (calls w.trace).length owner name)
    let t := w.trace ++ [.query repoName owner name result]
    match result with
    | .panic => .panicked { w with trace := t }
    | .err e => .running { w with trace := t ++ [.warn owner name e] }
    | .ok nextRepo =>
      match w.tags repoName with
      | none => .running { tags := w.tags.set repoName nextRepo, trace := t }
      | some currRepo =>
        if nextRepo.Tag.Name ≠ currRepo.Tag.Name then
          .running { tags := w.tags.set repoName nextRepo
                     trace := t ++ [.send repoName nextRepo] }
        else
          .running { w with trace := t ++ [.debug owner name] }
  | _ => .panicked w

/-- One pass of `for _, repoName := range repositories`, up to the sleep. -/
def Checker.Run_range (client : Client) : World → List String → RunOutcome
  | w, [] => .running w
  | w, repoName :: rest =>
    match Checker.Run_body client w repoName with
    | .running w1 => Checker.Run_range client w1 rest
    | .panicked w1 => .panicked w1

/-- One cycle of the outer `for`: the pass over `repositories`, then
`time.Sleep(interval)`. -/
def Checker.Run_cycle (client : Client) (interval : Nat) (repositories : List String)
    (w : World) : RunOutcome :=
  match Checker.Run_range client w repositories with
  | .running w1 => .running { w1 with trace := w1.trace ++ [.sleep interval] }
  | .panicked w1 => .panicked w1

/-- The first `n` cycles of the outer `for`. -/
def Checker.Run_loop (client : Client) (interval : Nat) (repositories : List String) :
    Nat → World → RunOutcome
  | 0, w => .running w
  | n + 1, w =>
    match Checker.Run_cycle client interval repositories w with
    | .running w1 => Checker.Run_loop client interval repositories n w1
    | .panicked w1 => .panicked w1

/-- `func (c *Checker) Run(interval, repositories, tags)`, observed for `n`
cycles: a nil `c.tags` is replaced by an empty map, then the loop runs. -/
def Checker.Run (client : Client) (c : Checker) (interval : Nat)
    (repositories : List String) (n : Nat) : RunOutcome :=
  let tags := match c.tags with
    | none => StateTable.make
    | some m => m
  Checker.Run_loop client interval repositories n { tags := tags, trace := [] }

/-! ## Notions used to state the properties -/

/-- The owner and name `Checker.Run` passes to `c.query` for an identifier that
splits into two pieces or more. -/
def ownerName (repoName : String) : String × String :=
  ((strings_Split repoName '/').getD 0 "", (strings_Split repoName '/').getD 1 "")

/-- The remote answers of `client` with call `k` of the run left out: the calls
after it move up by one place. -/
def Client.skip (client : Client) (k : Nat) : Client :=
  fun i => if i < k then client i else client (i + 1)

/-- Two worlds with the same map and the same channel, the first one having made
one query more. -/
def Sim (w1 w2 : World) : Prop :=
  w1.tags = w2.tags ∧ chan w1.trace = chan w2.trace ∧ sentFor w1.trace = sentFor w2.trace ∧
    (calls w1.trace).length = (calls w2.trace).length + 1

/-- The map agrees with the trace: the `Tag.Name` stored for an identifier is
that of its most recent successful observation, and there is no entry when there
is no such observation. -/
def Consistent (w : World) : Prop :=
  ∀ X, (w.tags X).map (fun r => r.Tag.Name) = (lastObserved w.trace X).map (fun r => r.Tag.Name)

/-! ## Concrete inputs -/

/-- A repository answer with one tag edge. -/
def answer (tagID tagName description : String) : Except String Query :=
  .ok { Repository :=
    { ID := .str "R1", Name := "r", Description := description, URL := some "https://h/o/r"
      Refs := { Edges := [{ Node := { ID := .str tagID, Name := tagName } }] } } }

/-- The Repository `Checker.query "o" "r"` builds from `answer`. -/
def state (tagID tagName description : String) : Repository :=
  { ID := "R1", Name := "r", Owner := "o", Description := description, URL := "https://h/o/r"
    Tag := { ID := tagID, Name := tagName } }

/-- The Repository `Checker.query owner _` builds from `answer tagID tagName "d"`. -/
def stateOf (owner tagID tagName : String) : Repository :=
  { ID := "R1", Name := "r", Owner := owner, Description := "d", URL := "https://h/o/r"
    Tag := { ID := tagID, Name := tagName } }

/-- A repository answer with two tag edges, the older one first. -/
def answerTwo : Except String Query :=
  .ok { Repository :=
    { ID := .str "R1", Name := "r", Description := "d", URL := some "https://h/o/r"
      Refs := { Edges := [{ Node := { ID := .str "t1", Name := "v1" } },
                          { Node := { ID := .str "t2", Name := "v2" } }] } } }

/-- A repository answer without any tag edge. -/
def answerNone : Query :=
  { Repository :=
    { ID := .str "R1", Name := "r", Description := "d", URL := some "https://h/o/r"
      Refs := { Edges := [] } } }

/-- The world of a fresh run: empty map, no effect yet. -/
def world0 : World := { tags := StateTable.make, trace := [] }

/-- A world in which "o/r" is stored with tag "v1". -/
def world1 : World := { tags := StateTable.make.set "o/r" (state "t1" "v1" "d"), trace := [] }

/-- A world in which "a/x", "b/y" and "c/z" are stored with tag "v1". -/
def world3 : World :=
  { tags := ((StateTable.make.set "a/x" (stateOf "a" "t1" "v1")).set "b/y"
      (stateOf "b" "t1" "v1")).set "c/z" (stateOf "c" "t1" "v1")
    trace := [] }

/-- Remote answers: a timeout on the second call, tag "v2" otherwise. -/
def clientTimeout : Client :=
  fun i _ _ => if i = 1 then .error "timeout" else answer "t2" "v2" "d"

/-- Remote answers for "o/r": tag "v1" on the first call, tag "v2" afterwards. -/
def clientV1V2 : Client :=
  fun i _ _ => if i = 0 then answer "t1" "v1" "d" else answer "t2" "v2" "d"

/-- A Checker as `main` builds it, with a nil map. -/
def checker0 : Checker := { tags := none }

/-! ## The embedding on concrete inputs -/

theorem strings_Split_examples :
    strings_Split "o/r" '/' = ["o", "r"] ∧ strings_Split "o" '/' = ["o"] ∧
      strings_Split "a/b/c" '/' = ["a", "b", "c"] ∧ strings_Split "" '/' = [""] ∧
      strings_Split "a/" '/' = ["a", ""] := by
  decide

theorem query_example :
    Checker.query "o" "r" (answer "t1" "v1" "d") = .ok (state "t1" "v1" "d") := by
  decide

/-- A timeout on the second call of a cycle drops the event for "b/y" only. -/
theorem Run_cycle_example :
    chan (Checker.Run_cycle clientTimeout 60 ["a/x", "b/y", "c/z"] world3).world.trace
      = [stateOf "a" "t2" "v2", stateOf "c" "t2" "v2"] := by
  decide

/-- The scenario of the spec: tags "v1.0", "v1.0", "v1.1", a timeout, "v1.1" in
five cycles give one event, for "v1.1", and leave "v1.1" stored. -/
theorem Run_scenario :
    chan (Checker.Run (fun i _ _ => if i < 2 then answer "t0" "v1.0" "d" else
        if i = 3 then .error "timeout" else answer "t1" "v1.1" "d") checker0 1
        ["org/repo1"] 5).world.trace = [stateOf "org" "t1" "v1.1"] ∧
      (Checker.Run (fun i _ _ => if i < 2 then answer "t0" "v1.0" "d" else
        if i = 3 then .error "timeout" else answer "t1" "v1.1" "d") checker0 1
        ["org/repo1"] 5).world.tags "org/repo1" = some (stateOf "org" "t1" "v1.1") := by
  decide

/-! ## Projections of the trace -/

@[simp] theorem calls_nil : calls [] = [] := rfl

@[simp] theorem chan_nil : chan [] = [] := rfl

@[simp] theorem sentFor_nil : sentFor [] = [] := rfl

@[simp] theorem calls_append (s t : List Action) : calls (s ++ t) = calls s ++ calls t := by
  simp [calls, List.filterMap_append]

@[simp] theorem chan_append (s t : List Action) : chan (s ++ t) = chan s ++ chan t := by
  simp [chan, List.filterMap_append]

@[simp] theorem sentFor_append (s t : List Action) :
    sentFor (s ++ t) = sentFor s ++ sentFor t := by
  simp [sentFor, List.filterMap_append]

@[simp] theorem calls_query (X o nm : String) (r : QueryOutcome) (t : List Action) :
    calls (.query X o nm r :: t) = (X, o, nm) :: calls t := rfl

@[simp] theorem calls_warn (o nm : String) (e : QueryError) (t : List Action) :
    calls (.warn o nm e :: t) = calls t := rfl

@[simp] theorem calls_debug (o nm : String) (t : List Action) :
    calls (.debug o nm :: t) = calls t := rfl

@[simp] theorem calls_send (X : String) (r : Repository) (t : List Action) :
    calls (.send X r :: t) = calls t := rfl

@[simp] theorem calls_sleep (i : Nat) (t : List Action) : calls (.sleep i :: t) = calls t := rfl

@[simp] theorem chan_query (X o nm : String) (r : QueryOutcome) (t : List Action) :
    chan (.query X o nm r :: t) = chan t := rfl

@[simp] theorem chan_warn (o nm : String) (e : QueryError) (t : List Action) :
    chan (.warn o nm e :: t) = chan t := rfl

@[simp] theorem chan_debug (o nm : String) (t : List Action) :
    chan (.debug o nm :: t) = chan t := rfl

@[simp] theorem chan_send (X : String) (r : Repository) (t : List Action) :
    chan (.send X r :: t) = r :: chan t := rfl

@[simp] theorem chan_sleep (i : Nat) (t : List Action) : chan (.sleep i :: t) = chan t := rfl

@[simp] theorem sentFor_query (X o nm : String) (r : QueryOutcome) (t : List Action) :
    sentFor (.query X o nm r :: t) = sentFor t := rfl

@[simp] theorem sentFor_warn (o nm : String) (e : QueryError) (t : List Action) :
    sentFor (.warn o nm e :: t) = sentFor t := rfl

@[simp] theorem sentFor_debug (o nm : String) (t : List Action) :
    sentFor (.debug o nm :: t) = sentFor t := rfl

@[simp] theorem sentFor_send (X : String) (r : Repository) (t : List Action) :
    sentFor (.send X r :: t) = X :: sentFor t := rfl

@[simp] theorem sentFor_sleep (i : Nat) (t : List Action) :
    sentFor (.sleep i :: t) = sentFor t := rfl

theorem chan_length_sentFor (t : List Action) : (chan t).length = (sentFor t).length := by
  induction t with
  | nil => rfl
  | cons a t ih => cases a <;> simp [ih]

@[simp] theorem StateTable.set_same (m : StateTable) (k : String) (r : Repository) :
    m.set k r k = some r := by
  simp [StateTable.set]

theorem StateTable.set_other (m : StateTable) (k j : String) (r : Repository) (h : j ≠ k) :
    m.set k r j = m j := by
  simp [StateTable.set, h]

/-! ## The loop body, case by case -/

theorem Run_body_noSplit (client : Client) (w : World) (X : String)
    (h : ∀ o nm rest, strings_Split X '/' ≠ o :: nm :: rest) :
    Checker.Run_body client w X = .panicked w := by
  unfold Checker.Run_body
  split
  · next o nm rest heq => exact absurd heq (h o nm rest)
  · rfl

theorem Run_body_panic (client : Client) (w : World) (X o nm : String) (rest : List String)
    (hs : strings_Split X '/' = o :: nm :: rest)
    (hq : Checker.query o nm (client (calls w.trace).length o nm) = .panic) :
    Checker.Run_body client w X
      = .panicked { w with trace := w.trace ++ [.query X o nm .panic] } := by
  unfold Checker.Run_body
  simp only [hs, hq]

theorem Run_body_err (client : Client) (w : World) (X o nm : String) (rest : List String)
    (e : QueryError) (hs : strings_Split X '/' = o :: nm :: rest)
    (hq : Checker.query o nm (client (calls w.trace).length o nm) = .err e) :
    Checker.Run_body client w X
      = .running { w with trace := w.trace ++ [.query X o nm (.err e)] ++ [.warn o nm e] } := by
  unfold Checker.Run_body
  simp only [hs, hq]

theorem Run_body_first (client : Client) (w : World) (X o nm : String) (rest : List String)
    (S : Repository) (hs : strings_Split X '/' = o :: nm :: rest)
    (hq : Checker.query o nm (client (calls w.trace).length o nm) = .ok S)
    (ht : w.tags X = none) :
    Checker.Run_body client w X
      = .running { tags := w.tags.set X S, trace := w.trace ++ [.query X o nm (.ok S)] } := by
  unfold Checker.Run_body
  simp only [hs, hq, ht]

theorem Run_body_changed (client : Client) (w : World) (X o nm : String) (rest : List String)
    (S curr : Repository) (hs : strings_Split X '/' = o :: nm :: rest)
    (hq : Checker.query o nm (client (calls w.trace).length o nm) = .ok S)
    (ht : w.tags X = some curr) (hn : S.Tag.Name ≠ curr.Tag.Name) :
    Checker.Run_body client w X
      = .running { tags := w.tags.set X S
                   trace := w.trace ++ [.query X o nm (.ok S)] ++ [.send X S] } := by
  unfold Checker.Run_body
  simp only [hs, hq, ht]
  rw [if_pos hn]

theorem Run_body_same (client : Client) (w : World) (X o nm : String) (rest : List String)
    (S curr : Repository) (hs : strings_Split X '/' = o :: nm :: rest)
    (hq : Checker.query o nm (client (calls w.trace).length o nm) = .ok S)
    (ht : w.tags X = some curr) (hn : S.Tag.Name = curr.Tag.Name) :
    Checker.Run_body client w X
      = .running { w with trace := w.trace ++ [.query X o nm (.ok S)] ++ [.debug o nm] } := by
  unfold Checker.Run_body
  simp only [hs, hq, ht]
  rw [if_neg (not_not.mpr hn)]

/-- The loop body does one of six things. -/
theorem Run_body_cases (client : Client) (w : World) (X : String) :
    ((∀ o nm rest, strings_Split X '/' ≠ o :: nm :: rest) ∧
        Checker.Run_body client w X = .panicked w) ∨
    ∃ o nm rest, strings_Split X '/' = o :: nm :: rest ∧
      ((Checker.query o nm (client (calls w.trace).length o nm) = .panic ∧
          Checker.Run_body client w X
            = .panicked { w with trace := w.trace ++ [.query X o nm .panic] }) ∨
       (∃ e, Checker.query o nm (client (calls w.trace).length o nm) = .err e ∧
          Checker.Run_body client w X
            = .running { w with
                trace := w.trace ++ [.query X o nm (.err e)] ++ [.warn o nm e] }) ∨
       (∃ S, Checker.query o nm (client (calls w.trace).length o nm) = .ok S ∧
          w.tags X = none ∧
          Checker.Run_body client w X
            = .running { tags := w.tags.set X S
                         trace := w.trace ++ [.query X o nm (.ok S)] }) ∨
       (∃ S curr, Checker.query o nm (client (calls w.trace).length o nm) = .ok S ∧
          w.tags X = some curr ∧ S.Tag.Name ≠ curr.Tag.Name ∧
          Checker.Run_body client w X
            = .running { tags := w.tags.set X S
                         trace := w.trace ++ [.query X o nm (.ok S)] ++ [.send X S] }) ∨
       (∃ S curr, Checker.query o nm (client (calls w.trace).length o nm) = .ok S ∧
          w.tags X = some curr ∧ S.Tag.Name = curr.Tag.Name ∧
          Checker.Run_body client w X
            = .running { w with
                trace := w.trace ++ [.query X o nm (.ok S)] ++ [.debug o nm] })) := by
  by_cases hs : ∃ o nm rest, strings_Split X '/' = o :: nm :: rest
  · obtain ⟨o, nm, rest, hs⟩ := hs
    refine Or.inr ⟨o, nm, rest, hs, ?_⟩
    cases hq : Checker.query o nm (client (calls w.trace).length o nm) with
    | panic => exact Or.inl ⟨rfl, Run_body_panic client w X o nm rest hs hq⟩
    | err e => exact Or.inr (Or.inl ⟨e, rfl, Run_body_err client w X o nm rest e hs hq⟩)
    | ok S =>
      cases ht : w.tags X with
      | none =>
        exact Or.inr (Or.inr (Or.inl ⟨S, rfl, rfl, Run_body_first client w X o nm rest S hs hq ht⟩))
      | some curr =>
        by_cases hn : S.Tag.Name = curr.Tag.Name
        · exact Or.inr (Or.inr (Or.inr (Or.inr
            ⟨S, curr, rfl, rfl, hn, Run_body_same client w X o nm rest S curr hs hq ht hn⟩)))
        · exact Or.inr (Or.inr (Or.inr (Or.inl
            ⟨S, curr, rfl, rfl, hn, Run_body_changed client w X o nm rest S curr hs hq ht hn⟩)))
  · have hs2 : ∀ o nm rest, strings_Split X '/' ≠ o :: nm :: rest :=
      fun o nm rest h => hs ⟨o, nm, rest, h⟩
    exact Or.inl ⟨hs2, Run_body_noSplit client w X hs2⟩

/-! ## Passes and cycles -/

theorem Run_range_nil (client : Client) (w : World) :
    Checker.Run_range client w [] = .running w := rfl

theorem Run_range_cons_running (client : Client) (w w1 : World) (X : String)
    (rest : List String) (h : Checker.Run_body client w X = .running w1) :
    Checker.Run_range client w (X :: rest) = Checker.Run_range client w1 rest := by
  simp [Checker.Run_range, h]

theorem Run_range_cons_panicked (client : Client) (w w1 : World) (X : String)
    (rest : List String) (h : Checker.Run_body client w X = .panicked w1) :
    Checker.Run_range client w (X :: rest) = .panicked w1 := by
  simp [Checker.Run_range, h]

theorem Run_range_append_running (client : Client) (pre post : List String) (w w1 : World)
    (h : Checker.Run_range client w pre = .running w1) :
    Checker.Run_range client w (pre ++ post) = Checker.Run_range client w1 post := by
  induction pre generalizing w with
  | nil =>
    simp only [Run_range_nil, RunOutcome.running.injEq] at h
    subst h
    rfl
  | cons X pre ih =>
    cases hb : Checker.Run_body client w X with
    | running w2 =>
      rw [Run_range_cons_running client w w2 X pre hb] at h
      rw [List.cons_append, Run_range_cons_running client w w2 X (pre ++ post) hb]
      exact ih w2 h
    | panicked w2 =>
      rw [Run_range_cons_panicked client w w2 X pre hb] at h
      cases h

theorem Run_range_append_panicked (client : Client) (pre post : List String) (w w1 : World)
    (h : Checker.Run_range client w pre = .panicked w1) :
    Checker.Run_range client w (pre ++ post) = .panicked w1 := by
  induction pre generalizing w with
  | nil => simp [Run_range_nil] at h
  | cons X pre ih =>
    cases hb : Checker.Run_body client w X with
    | running w2 =>
      rw [Run_range_cons_running client w w2 X pre hb] at h
      rw [List.cons_append, Run_range_cons_running client w w2 X (pre ++ post) hb]
      exact ih w2 h
    | panicked w2 =>
      rw [Run_range_cons_panicked client w w2 X pre hb] at h
      rw [List.cons_append, Run_range_cons_panicked client w w2 X (pre ++ post) hb]
      exact h

/-- A property of worlds kept by every loop body is kept by a pass. -/
theorem Run_range_preserves (client : Client) (P : World → Prop)
    (hbody : ∀ w X, P w → P (Checker.Run_body client w X).world)
    (w : World) (l : List String) (hw : P w) :
    P (Checker.Run_range client w l).world := by
  induction l generalizing w with
  | nil => exact hw
  | cons X l ih =>
    have h1 := hbody w X hw
    cases hb : Checker.Run_body client w X with
    | running w2 =>
      rw [Run_range_cons_running client w w2 X l hb]
      rw [hb] at h1
      exact ih w2 h1
    | panicked w2 =>
      rw [Run_range_cons_panicked client w w2 X l hb]
      rw [hb] at h1
      exact h1

/-- A property of worlds that does not look at sleeps and is kept by every loop
body is kept by a cycle. -/
theorem Run_cycle_preserves (client : Client) (P : World → Prop)
    (hbody : ∀ w X, P w → P (Checker.Run_body client w X).world)
    (hsleep : ∀ w i, P w → P { w with trace := w.trace ++ [.sleep i] })
    (interval : Nat) (l : List String) (w : World) (hw : P w) :
    P (Checker.Run_cycle client interval l w).world := by
  have h1 := Run_range_preserves client P hbody w l hw
  unfold Checker.Run_cycle
  cases hr : Checker.Run_range client w l with
  | running w2 =>
    rw [hr] at h1
    exact hsleep w2 interval h1
  | panicked w2 =>
    rw [hr] at h1
    exact h1

/-- The same for any number of cycles. -/
theorem Run_loop_preserves (client : Client) (P : World → Prop)
    (hbody : ∀ w X, P w → P (Checker.Run_body client w X).world)
    (hsleep : ∀ w i, P w → P { w with trace := w.trace ++ [.sleep i] })
    (interval : Nat) (l : List String) (n : Nat) (w : World) (hw : P w) :
    P (Checker.Run_loop client interval l n w).world := by
  induction n generalizing w with
  | zero => exact hw
  | succ n ih =>
    have h1 := Run_cycle_preserves client P hbody hsleep interval l w hw
    unfold Checker.Run_loop
    cases hc : Checker.Run_cycle client interval l w with
    | running w2 =>
      rw [hc] at h1
      exact ih w2 h1
    | panicked w2 =>
      rw [hc] at h1
      exact h1

/-! ## Entries are kept, calls are counted -/

theorem Run_body_keeps (client : Client) (Y : String) (w : World) (X : String)
    (h : (w.tags Y).isSome = true) :
    ((Checker.Run_body client w X).world.tags Y).isSome = true := by
  rcases Run_body_cases client w X with ⟨_, hb⟩ | ⟨o, nm, rest, _, ⟨_, hb⟩ | ⟨e, _, hb⟩ |
    ⟨S, _, _, hb⟩ | ⟨S, curr, _, _, _, hb⟩ | ⟨S, curr, _, _, _, hb⟩⟩ <;>
    rw [hb] <;> simp only [RunOutcome.world] <;> try exact h
  all_goals
    by_cases hY : Y = X
    · subst hY; simp
    · rw [StateTable.set_other _ _ _ _ hY]; exact h

theorem Run_body_calls (client : Client) (w : World) (X : String) :
    (calls w.trace).length ≤ (calls (Checker.Run_body client w X).world.trace).length ∧
      (calls (Checker.Run_body client w X).world.trace).length ≤ (calls w.trace).length + 1 := by
  rcases Run_body_cases client w X with ⟨_, hb⟩ | ⟨o, nm, rest, _, ⟨_, hb⟩ | ⟨e, _, hb⟩ |
    ⟨S, _, _, hb⟩ | ⟨S, curr, _, _, _, hb⟩ | ⟨S, curr, _, _, _, hb⟩⟩ <;>
    rw [hb] <;> simp [RunOutcome.world]

theorem Run_range_calls (client : Client) (l : List String) (w : World) :
    (calls w.trace).length ≤ (calls (Checker.Run_range client w l).world.trace).length ∧
      (calls (Checker.Run_range client w l).world.trace).length
        ≤ (calls w.trace).length + l.length := by
  induction l generalizing w with
  | nil => simp [Run_range_nil, RunOutcome.world]
  | cons X l ih =>
    have h1 := Run_body_calls client w X
    cases hb : Checker.Run_body client w X with
    | running w2 =>
      rw [Run_range_cons_running client w w2 X l hb]
      rw [hb] at h1
      simp only [RunOutcome.world] at h1
      have h2 := ih w2
      simp only [List.length_cons]
      omega
    | panicked w2 =>
      rw [Run_range_cons_panicked client w w2 X l hb]
      rw [hb] at h1
      simp only [RunOutcome.world] at h1 ⊢
      simp only [List.length_cons]
      omega

theorem Run_cycle_calls (client : Client) (interval : Nat) (l : List String) (w : World) :
    (calls w.trace).length ≤ (calls (Checker.Run_cycle client interval l w).world.trace).length ∧
      (calls (Checker.Run_cycle client interval l w).world.trace).length
        ≤ (calls w.trace).length + l.length := by
  have h1 := Run_range_calls client l w
  unfold Checker.Run_cycle
  cases hr : Checker.Run_range client w l with
  | running w2 =>
    rw [hr] at h1
    simpa [RunOutcome.world] using h1
  | panicked w2 =>
    rw [hr] at h1
    simpa [RunOutcome.world] using h1

theorem Run_loop_calls (client : Client) (interval : Nat) (l : List String) (n : Nat)
    (w : World) :
    (calls (Checker.Run_loop client interval l n w).world.trace).length
      ≤ (calls w.trace).length + n * l.length := by
  induction n generalizing w with
  | zero => simp [Checker.Run_loop, RunOutcome.world]
  | succ n ih =>
    have h1 := Run_cycle_calls client interval l w
    unfold Checker.Run_loop
    cases hc : Checker.Run_cycle client interval l w with
    | running w2 =>
      rw [hc] at h1
      simp only [RunOutcome.world] at h1
      have h2 := ih w2
      simp only [Nat.succ_mul]
      omega
    | panicked w2 =>
      rw [hc] at h1
      simp only [RunOutcome.world] at h1 ⊢
      simp only [Nat.succ_mul]
      omega

/-! ## Observations with the stored name -/

/-- While every query for the owner and name of `X` made from call `lo` up to call
`hi` succeeds with the stored name, the loop body keeps the entry of `X` and
sends nothing for `X`. -/
theorem Run_body_same_name (client : Client) (X owner name : String) (rest : List String)
    (curr : Repository) (lo hi k : Nat)
    (hsplit : strings_Split X '/' = owner :: name :: rest)
    (hsame : ∀ i, lo ≤ i → i < hi →
      ∃ S, Checker.query owner name (client i owner name) = .ok S ∧
        S.Tag.Name = curr.Tag.Name)
    (w : World) (Y : String)
    (hw : lo ≤ (calls w.trace).length ∧
      ((calls w.trace).length ≤ hi →
        w.tags X = some curr ∧ (sentFor w.trace).count X = k)) :
    lo ≤ (calls (Checker.Run_body client w Y).world.trace).length ∧
      ((calls (Checker.Run_body client w Y).world.trace).length ≤ hi →
        (Checker.Run_body client w Y).world.tags X = some curr ∧
          (sentFor (Checker.Run_body client w Y).world.trace).count X = k) := by
  obtain ⟨hlo, hw⟩ := hw
  have hc := Run_body_calls client w Y
  refine ⟨le_trans hlo hc.1, ?_⟩
  intro hhi
  have hw1 := hw (le_trans hc.1 hhi)
  rcases Run_body_cases client w Y with ⟨_, hb⟩ | ⟨o, nm, rest1, hs, ⟨_, hb⟩ | ⟨e, _, hb⟩ |
    ⟨S, _, ht, hb⟩ | ⟨S, c1, hq, ht, hn, hb⟩ | ⟨S, c1, _, _, _, hb⟩⟩
  · rw [hb]; exact hw1
  · rw [hb]; simpa [RunOutcome.world] using hw1
  · rw [hb]; simpa [RunOutcome.world] using hw1
  · rw [hb]
    have hYX : X ≠ Y := by
      intro h
      subst h
      rw [hw1.1] at ht
      cases ht
    simp only [RunOutcome.world]
    rw [StateTable.set_other _ _ _ _ hYX]
    simpa using hw1
  · rw [hb] at hhi ⊢
    have hYX : X ≠ Y := by
      intro h
      subst h
      rw [hsplit] at hs
      simp only [List.cons.injEq] at hs
      obtain ⟨h1, h2, _⟩ := hs
      subst h1
      subst h2
      have hidx : (calls w.trace).length < hi := by
        simp [RunOutcome.world] at hhi
        omega
      obtain ⟨S1, hq1, hn1⟩ := hsame _ hlo hidx
      rw [hq] at hq1
      cases hq1
      rw [hw1.1] at ht
      cases ht
      exact hn hn1
    simp only [RunOutcome.world]
    rw [StateTable.set_other _ _ _ _ hYX]
    refine ⟨hw1.1, ?_⟩
    have hYX2 : ¬ (Y = X) := fun h => hYX h.symm
    simp [List.count_cons, hYX2]
    exact hw1.2
  · rw [hb]; simpa [RunOutcome.world] using hw1

/-- With a single watched identifier whose observations all carry the stored
name, `n` cycles complete, observe it `n` times and leave map and channel alone. -/
theorem Run_loop_single_same (client : Client) (interval : Nat) (X owner name : String)
    (rest : List String) (curr : Repository)
    (hsplit : strings_Split X '/' = owner :: name :: rest) (n : Nat) (w : World)
    (hentry : w.tags X = some curr)
    (hsame : ∀ i, (calls w.trace).length ≤ i → i < (calls w.trace).length + n →
      ∃ S, Checker.query owner name (client i owner name) = .ok S ∧
        S.Tag.Name = curr.Tag.Name) :
    ∃ w1, Checker.Run_loop client interval [X] n w = .running w1 ∧
      w1.tags = w.tags ∧ chan w1.trace = chan w.trace ∧
      calls w1.trace = calls w.trace ++ List.replicate n (X, owner, name) := by
  induction n generalizing w with
  | zero => exact ⟨w, rfl, rfl, rfl, by simp⟩
  | succ n ih =>
    obtain ⟨S, hq, hn⟩ := hsame (calls w.trace).length (le_refl _) (by omega)
    have hb := Run_body_same client w X owner name rest S curr hsplit hq hentry hn
    have hc : Checker.Run_cycle client interval [X] w
        = .running { w with trace := w.trace ++ [.query X owner name (.ok S)]
                      ++ [.debug owner name] ++ [.sleep interval] } := by
      simp [Checker.Run_cycle, Checker.Run_range, hb]
    obtain ⟨w1, h1, h2, h3, h4⟩ := ih
      { w with trace := w.trace ++ [.query X owner name (.ok S)]
                      ++ [.debug owner name] ++ [.sleep interval] } hentry
      (by
        intro i hi1 hi2
        simp at hi1 hi2
        exact hsame i (by omega) (by omega))
    refine ⟨w1, ?_, h2, ?_, ?_⟩
    · unfold Checker.Run_loop
      rw [hc]
      exact h1
    · rw [h3]; simp
    · rw [h4]; simp [List.replicate_succ]

/-! ## Splitting identifiers -/

theorem splitChars_ne_nil (sep : Char) (l : List Char) : splitChars sep l ≠ [] := by
  cases l with
  | nil => simp [splitChars]
  | cons c cs =>
    unfold splitChars
    split
    · simp
    · split <;> simp

theorem splitChars_of_mem (sep : Char) (l : List Char) (h : sep ∈ l) :
    ∃ a b rest, splitChars sep l = a :: b :: rest := by
  induction l with
  | nil => cases h
  | cons c cs ih =>
    unfold splitChars
    by_cases hc : c = sep
    · rw [if_pos hc]
      cases hsp : splitChars sep cs with
      | nil => exact absurd hsp (splitChars_ne_nil sep cs)
      | cons b rest => exact ⟨[], b, rest, rfl⟩
    · rw [if_neg hc]
      have hmem : sep ∈ cs := by
        rcases List.mem_cons.mp h with h1 | h1
        · exact absurd h1.symm hc
        · exact h1
      obtain ⟨a, b, rest, hsp⟩ := ih hmem
      rw [hsp]
      exact ⟨c :: a, b, rest, rfl⟩

theorem strings_Split_of_mem (X : String) (h : '/' ∈ X.data) :
    ∃ o nm rest, strings_Split X '/' = o :: nm :: rest := by
  obtain ⟨a, b, rest, hsp⟩ := splitChars_of_mem '/' X.data h
  exact ⟨String.mk a, String.mk b, rest.map String.mk, by simp [strings_Split, hsp]⟩

theorem ownerName_of_split (X o nm : String) (rest : List String)
    (h : strings_Split X '/' = o :: nm :: rest) : ownerName X = (o, nm) := by
  simp [ownerName, h]

/-! ## What a pass adds to the trace -/

theorem Run_body_trace (client : Client) (w : World) (X : String) :
    ∃ new, (Checker.Run_body client w X).world.trace = w.trace ++ new ∧
      (sentFor new = [] ∨ sentFor new = [X]) := by
  rcases Run_body_cases client w X with ⟨_, hb⟩ | ⟨o, nm, rest, _, ⟨_, hb⟩ | ⟨e, _, hb⟩ |
    ⟨S, _, _, hb⟩ | ⟨S, curr, _, _, _, hb⟩ | ⟨S, curr, _, _, _, hb⟩⟩ <;> rw [hb]
  · exact ⟨[], by simp [RunOutcome.world], Or.inl rfl⟩
  · exact ⟨[.query X o nm .panic], rfl, Or.inl rfl⟩
  · exact ⟨[.query X o nm (.err e), .warn o nm e], by simp [RunOutcome.world], Or.inl rfl⟩
  · exact ⟨[.query X o nm (.ok S)], rfl, Or.inl rfl⟩
  · exact ⟨[.query X o nm (.ok S), .send X S], by simp [RunOutcome.world], Or.inr rfl⟩
  · exact ⟨[.query X o nm (.ok S), .debug o nm], by simp [RunOutcome.world], Or.inl rfl⟩

theorem Run_range_trace (client : Client) (l : List String) (w : World) :
    ∃ new, (Checker.Run_range client w l).world.trace = w.trace ++ new ∧
      (sentFor new).Sublist l := by
  induction l generalizing w with
  | nil => exact ⟨[], by simp [Run_range_nil, RunOutcome.world], by simp⟩
  | cons X l ih =>
    obtain ⟨new1, h1, h2⟩ := Run_body_trace client w X
    have hsub1 : (sentFor new1).Sublist [X] := by
      rcases h2 with h2 | h2 <;> simp [h2]
    cases hb : Checker.Run_body client w X with
    | running w2 =>
      rw [Run_range_cons_running client w w2 X l hb]
      rw [hb] at h1
      simp only [RunOutcome.world] at h1
      obtain ⟨new2, h3, h4⟩ := ih w2
      refine ⟨new1 ++ new2, by rw [h3, h1, List.append_assoc], ?_⟩
      rw [sentFor_append]
      exact List.Sublist.append hsub1 h4
    | panicked w2 =>
      rw [Run_range_cons_panicked client w w2 X l hb]
      rw [hb] at h1
      refine ⟨new1, h1, ?_⟩
      exact hsub1.trans (by simp)

theorem Run_cycle_trace (client : Client) (interval : Nat) (l : List String) (w : World) :
    ∃ new, (Checker.Run_cycle client interval l w).world.trace = w.trace ++ new ∧
      (sentFor new).Sublist l := by
  obtain ⟨new, h1, h2⟩ := Run_range_trace client l w
  unfold Checker.Run_cycle
  cases hr : Checker.Run_range client w l with
  | running w2 =>
    rw [hr] at h1
    simp only [RunOutcome.world] at h1
    exact ⟨new ++ [.sleep interval], by simp [RunOutcome.world, h1], by simpa using h2⟩
  | panicked w2 =>
    rw [hr] at h1
    exact ⟨new, h1, h2⟩

/-- When every identifier splits and every query returns, a pass completes and
calls the query once per identifier, in list order. -/
theorem Run_range_calls_all (client : Client)
    (hreturns : ∀ i o nm, (Checker.query o nm (client i o nm)).returns = true)
    (l : List String) (hshape : ∀ X ∈ l, '/' ∈ X.data) (w : World) :
    ∃ w1, Checker.Run_range client w l = .running w1 ∧
      calls w1.trace
        = calls w.trace ++ l.map (fun X => (X, (ownerName X).1, (ownerName X).2)) := by
  induction l generalizing w with
  | nil => exact ⟨w, rfl, by simp⟩
  | cons X l ih =>
    obtain ⟨o, nm, rest, hs⟩ := strings_Split_of_mem X (hshape X (List.mem_cons_self X l))
    have hon := ownerName_of_split X o nm rest hs
    have hl : ∀ Y ∈ l, '/' ∈ Y.data := fun Y hY => hshape Y (List.mem_cons_of_mem X hY)
    have step : ∀ w2, Checker.Run_body client w X = .running w2 →
        calls w2.trace = calls w.trace ++ [(X, o, nm)] →
        ∃ w1, Checker.Run_range client w (X :: l) = .running w1 ∧
          calls w1.trace = calls w.trace
            ++ (X :: l).map (fun X => (X, (ownerName X).1, (ownerName X).2)) := by
      intro w2 hb hc
      obtain ⟨w1, h1, h2⟩ := ih hl w2
      refine ⟨w1, by rw [Run_range_cons_running client w w2 X l hb]; exact h1, ?_⟩
      rw [h2, hc]
      simp [hon]
    rcases Run_body_cases client w X with ⟨hno, _⟩ | ⟨o1, nm1, rest1, hs1, ⟨hq, _⟩ | ⟨e, _, hb⟩ |
      ⟨S, _, _, hb⟩ | ⟨S, curr, _, _, _, hb⟩ | ⟨S, curr, _, _, _, hb⟩⟩
    · exact absurd hs (hno o nm rest)
    · have h := hreturns (calls w.trace).length o1 nm1
      rw [hq] at h
      cases h
    all_goals
      rw [hs] at hs1
      simp only [List.cons.injEq] at hs1
      obtain ⟨h1, h2, _⟩ := hs1
      subst h1
      subst h2
      exact step _ hb (by simp)

/-! ## The map agrees with the observations -/

theorem lastObserved_append_singleton (t : List Action) (a : Action) (X : String) :
    lastObserved (t ++ [a]) X = (a.observed X).or (lastObserved t X) := by
  unfold lastObserved
  rw [List.reverse_append, List.reverse_singleton, List.singleton_append, List.findSome?_cons]
  cases a.observed X <;> rfl

theorem lastObserved_mem (t : List Action) (X : String) (r : Repository)
    (h : lastObserved t X = some r) : ∃ o nm, Action.query X o nm (.ok r) ∈ t := by
  obtain ⟨a, ha, hf⟩ := List.exists_of_findSome?_eq_some h
  rw [List.mem_reverse] at ha
  cases a with
  | query Y o nm res =>
    cases res with
    | ok r1 =>
      simp only [Action.observed] at hf
      by_cases hY : Y = X
      · rw [if_pos hY] at hf
        cases hf
        subst hY
        exact ⟨o, nm, ha⟩
      · rw [if_neg hY] at hf
        cases hf
    | err e => cases hf
    | panic => cases hf
  | warn o nm e => cases hf
  | debug o nm => cases hf
  | send Y r1 => cases hf
  | sleep i => cases hf

theorem Consistent_sleep (w : World) (i : Nat) (h : Consistent w) :
    Consistent { w with trace := w.trace ++ [.sleep i] } := by
  intro X
  simp only [lastObserved_append_singleton, Action.observed, Option.none_or]
  exact h X

theorem Consistent_store (w : World) (Y o nm : String) (S : Repository)
    (tail : List Action) (htail : ∀ X, lastObserved (w.trace ++ [.query Y o nm (.ok S)] ++ tail) X
      = lastObserved (w.trace ++ [.query Y o nm (.ok S)]) X)
    (h : Consistent w) :
    Consistent { tags := w.tags.set Y S, trace := w.trace ++ [.query Y o nm (.ok S)] ++ tail } := by
  intro X
  simp only [htail, lastObserved_append_singleton, Action.observed]
  by_cases hX : X = Y
  · subst hX
    simp
  · have hX2 : ¬ (Y = X) := fun e => hX e.symm
    rw [StateTable.set_other _ _ _ _ hX, if_neg hX2, Option.none_or]
    exact h X

theorem Run_body_consistent (client : Client) (w : World) (Y : String) (h : Consistent w) :
    Consistent (Checker.Run_body client w Y).world := by
  rcases Run_body_cases client w Y with ⟨_, hb⟩ | ⟨o, nm, rest, _, ⟨_, hb⟩ | ⟨e, _, hb⟩ |
    ⟨S, _, _, hb⟩ | ⟨S, curr, _, _, _, hb⟩ | ⟨S, curr, _, ht, hn, hb⟩⟩ <;> rw [hb] <;>
    simp only [RunOutcome.world]
  · exact h
  · intro X
    simp only [lastObserved_append_singleton, Action.observed, Option.none_or]
    exact h X
  · intro X
    simp only [lastObserved_append_singleton, Action.observed, Option.none_or]
    exact h X
  · have := Consistent_store w Y o nm S [] (fun X => by simp) h
    simpa using this
  · exact Consistent_store w Y o nm S [.send Y S]
      (fun X => by simp only [lastObserved_append_singleton, Action.observed, Option.none_or]) h
  · intro X
    simp only [lastObserved_append_singleton, Action.observed, Option.none_or]
    by_cases hX : Y = X
    · subst hX
      simp [ht, hn]
    · rw [if_neg hX, Option.none_or]
      exact h X

/-- A run that starts with an empty map keeps the map consistent with the trace. -/
theorem Run_consistent (client : Client) (c : Checker) (interval : Nat)
    (repositories : List String) (n : Nat)
    (hempty : ∀ m, c.tags = some m → ∀ X, m X = none) :
    Consistent (Checker.Run client c interval repositories n).world := by
  unfold Checker.Run
  apply Run_loop_preserves client Consistent
    (fun w1 Y h => Run_body_consistent client w1 Y h)
    (fun w1 i h => Consistent_sleep w1 i h)
  intro Y
  cases hc : c.tags with
  | none => rfl
  | some m => simp [hempty m hc Y, lastObserved]

/-! ## Leaving one failing query out -/

theorem Run_body_congr (c1 c2 : Client) (w : World) (X : String)
    (h : c1 (calls w.trace).length = c2 (calls w.trace).length) :
    Checker.Run_body c1 w X = Checker.Run_body c2 w X := by
  simp only [Checker.Run_body, h]

theorem Run_range_congr (c1 c2 : Client) (l : List String) (w : World)
    (h : ∀ i, i < (calls w.trace).length + l.length → c1 i = c2 i) :
    Checker.Run_range c1 w l = Checker.Run_range c2 w l := by
  induction l generalizing w with
  | nil => rfl
  | cons X l ih =>
    have hb := Run_body_congr c1 c2 w X (h _ (by simp))
    have hc := Run_body_calls c1 w X
    cases hb1 : Checker.Run_body c1 w X with
    | running w2 =>
      rw [Run_range_cons_running c1 w w2 X l hb1,
        Run_range_cons_running c2 w w2 X l (by rw [← hb]; exact hb1)]
      rw [hb1] at hc
      simp only [RunOutcome.world] at hc
      exact ih w2 (fun i hi => h i (by simp only [List.length_cons]; omega))
    | panicked w2 =>
      rw [Run_range_cons_panicked c1 w w2 X l hb1,
        Run_range_cons_panicked c2 w w2 X l (by rw [← hb]; exact hb1)]

/-- A pass that completes has made one call per identifier. -/
theorem Run_range_running_calls (client : Client) (l : List String) (w w1 : World)
    (h : Checker.Run_range client w l = .running w1) :
    (calls w1.trace).length = (calls w.trace).length + l.length := by
  induction l generalizing w with
  | nil =>
    simp only [Run_range_nil, RunOutcome.running.injEq] at h
    subst h
    simp
  | cons X l ih =>
    rcases Run_body_cases client w X with ⟨_, hb⟩ | ⟨o, nm, rest, _, ⟨_, hb⟩ | ⟨e, _, hb⟩ |
      ⟨S, _, _, hb⟩ | ⟨S, curr, _, _, _, hb⟩ | ⟨S, curr, _, _, _, hb⟩⟩
    · rw [Run_range_cons_panicked client w _ X l hb] at h
      cases h
    · rw [Run_range_cons_panicked client w _ X l hb] at h
      cases h
    all_goals
      rw [Run_range_cons_running client w _ X l hb] at h
      have h2 := ih _ h
      simp at h2
      simp only [List.length_cons]
      omega

theorem Run_body_sim (c1 c2 : Client) (w1 w2 : World) (Y : String) (hsim : Sim w1 w2)
    (hshift : c2 (calls w2.trace).length = c1 ((calls w2.trace).length + 1)) :
    (Checker.Run_body c1 w1 Y).isRunning = (Checker.Run_body c2 w2 Y).isRunning ∧
      Sim (Checker.Run_body c1 w1 Y).world (Checker.Run_body c2 w2 Y).world := by
  obtain ⟨h1, h2, h3, h4⟩ := hsim
  have hq : ∀ o nm, Checker.query o nm (c1 (calls w1.trace).length o nm)
      = Checker.query o nm (c2 (calls w2.trace).length o nm) := by
    intro o nm
    rw [h4, hshift]
  rcases Run_body_cases c2 w2 Y with ⟨hno, hb⟩ | ⟨o, nm, rest, hs, ⟨hq2, hb⟩ | ⟨e, hq2, hb⟩ |
    ⟨S, hq2, ht, hb⟩ | ⟨S, curr, hq2, ht, hn, hb⟩ | ⟨S, curr, hq2, ht, hn, hb⟩⟩
  · rw [hb, Run_body_noSplit c1 w1 Y hno]
    exact ⟨rfl, h1, h2, h3, h4⟩
  · rw [hb, Run_body_panic c1 w1 Y o nm rest hs (by rw [hq, hq2])]
    exact ⟨rfl, h1, by simpa [RunOutcome.world] using h2,
      by simpa [RunOutcome.world] using h3, by simpa [RunOutcome.world] using h4⟩
  · rw [hb, Run_body_err c1 w1 Y o nm rest e hs (by rw [hq, hq2])]
    exact ⟨rfl, h1, by simpa [RunOutcome.world] using h2,
      by simpa [RunOutcome.world] using h3, by simpa [RunOutcome.world] using h4⟩
  · rw [hb, Run_body_first c1 w1 Y o nm rest S hs (by rw [hq, hq2]) (by rw [h1]; exact ht)]
    exact ⟨rfl, by simp only [RunOutcome.world]; rw [h1],
      by simpa [RunOutcome.world] using h2,
      by simpa [RunOutcome.world] using h3, by simpa [RunOutcome.world] using h4⟩
  · rw [hb, Run_body_changed c1 w1 Y o nm rest S curr hs (by rw [hq, hq2])
      (by rw [h1]; exact ht) hn]
    exact ⟨rfl, by simp only [RunOutcome.world]; rw [h1],
      by simpa [RunOutcome.world] using h2,
      by simpa [RunOutcome.world] using h3, by simpa [RunOutcome.world] using h4⟩
  · rw [hb, Run_body_same c1 w1 Y o nm rest S curr hs (by rw [hq, hq2])
      (by rw [h1]; exact ht) hn]
    exact ⟨rfl, h1, by simpa [RunOutcome.world] using h2,
      by simpa [RunOutcome.world] using h3, by simpa [RunOutcome.world] using h4⟩

theorem Run_range_sim (c1 c2 : Client) (l : List String) (w1 w2 : World) (hsim : Sim w1 w2)
    (hshift : ∀ i, (calls w2.trace).length ≤ i → c2 i = c1 (i + 1)) :
    (Checker.Run_range c1 w1 l).isRunning = (Checker.Run_range c2 w2 l).isRunning ∧
      Sim (Checker.Run_range c1 w1 l).world (Checker.Run_range c2 w2 l).world := by
  induction l generalizing w1 w2 with
  | nil => exact ⟨rfl, hsim⟩
  | cons Y l ih =>
    have hb := Run_body_sim c1 c2 w1 w2 Y hsim (hshift _ (le_refl _))
    have hc := Run_body_calls c2 w2 Y
    cases hb1 : Checker.Run_body c1 w1 Y with
    | running u1 =>
      cases hb2 : Checker.Run_body c2 w2 Y with
      | running u2 =>
        rw [hb1, hb2] at hb
        rw [hb2] at hc
        simp only [RunOutcome.world] at hb hc
        rw [Run_range_cons_running c1 w1 u1 Y l hb1, Run_range_cons_running c2 w2 u2 Y l hb2]
        exact ih u1 u2 hb.2 (fun i hi => hshift i (by omega))
      | panicked u2 =>
        rw [hb1, hb2] at hb
        simp [RunOutcome.isRunning] at hb
    | panicked u1 =>
      cases hb2 : Checker.Run_body c2 w2 Y with
      | running u2 =>
        rw [hb1, hb2] at hb
        simp [RunOutcome.isRunning] at hb
      | panicked u2 =>
        rw [hb1, hb2] at hb
        rw [Run_range_cons_panicked c1 w1 u1 Y l hb1, Run_range_cons_panicked c2 w2 u2 Y l hb2]
        exact hb

theorem Run_cycle_of_range (client : Client) (interval : Nat) (l : List String) (w : World) :
    (Checker.Run_cycle client interval l w).isRunning
        = (Checker.Run_range client w l).isRunning ∧
      (Checker.Run_cycle client interval l w).world.tags
        = (Checker.Run_range client w l).world.tags ∧
      chan (Checker.Run_cycle client interval l w).world.trace
        = chan (Checker.Run_range client w l).world.trace ∧
      sentFor (Checker.Run_cycle client interval l w).world.trace
        = sentFor (Checker.Run_range client w l).world.trace := by
  unfold Checker.Run_cycle
  cases Checker.Run_range client w l <;> simp [RunOutcome.isRunning, RunOutcome.world]

/-- A pass with a failing query for `X` ends like the pass without `X` in which the
remote gives the same answers to the other queries. -/
theorem Run_range_skip (client : Client) (w : World) (pre post : List String)
    (X owner name : String) (rest : List String) (e : QueryError)
    (hsplit : strings_Split X '/' = owner :: name :: rest)
    (hfail : Checker.query owner name
      (client ((calls w.trace).length + pre.length) owner name) = .err e) :
    (Checker.Run_range client w (pre ++ X :: post)).isRunning
        = (Checker.Run_range (Client.skip client ((calls w.trace).length + pre.length)) w
            (pre ++ post)).isRunning ∧
      (Checker.Run_range client w (pre ++ X :: post)).world.tags
        = (Checker.Run_range (Client.skip client ((calls w.trace).length + pre.length)) w
            (pre ++ post)).world.tags ∧
      chan (Checker.Run_range client w (pre ++ X :: post)).world.trace
        = chan (Checker.Run_range (Client.skip client ((calls w.trace).length + pre.length)) w
            (pre ++ post)).world.trace ∧
      sentFor (Checker.Run_range client w (pre ++ X :: post)).world.trace
        = sentFor (Checker.Run_range (Client.skip client ((calls w.trace).length + pre.length)) w
            (pre ++ post)).world.trace := by
  have hpre : Checker.Run_range (Client.skip client ((calls w.trace).length + pre.length)) w pre
      = Checker.Run_range client w pre :=
    Run_range_congr _ _ pre w (fun i hi => by simp [Client.skip, hi])
  cases hr : Checker.Run_range client w pre with
  | panicked wp =>
    rw [Run_range_append_panicked client pre (X :: post) w wp hr,
      Run_range_append_panicked _ pre post w wp (by rw [hpre]; exact hr)]
    exact ⟨rfl, rfl, rfl, rfl⟩
  | running w1 =>
    have hlen := Run_range_running_calls client pre w w1 hr
    rw [Run_range_append_running client pre (X :: post) w w1 hr,
      Run_range_append_running _ pre post w w1 (by rw [hpre]; exact hr)]
    have hb := Run_body_err client w1 X owner name rest e hsplit (by rw [hlen]; exact hfail)
    rw [Run_range_cons_running client w1 _ X post hb]
    have hsim : Sim { w1 with trace := w1.trace ++ [.query X owner name (.err e)]
        ++ [.warn owner name e] } w1 := ⟨rfl, by simp, by simp, by simp⟩
    have h := Run_range_sim client (Client.skip client ((calls w.trace).length + pre.length))
      post _ w1 hsim (fun i hi => by
        have : ¬ i < (calls w.trace).length + pre.length := by omega
        simp [Client.skip, this])
    exact ⟨h.1, h.2.1, h.2.2.1, h.2.2.2.1⟩

/-! ## Claims -/

/-- C1 (change detection): when `X` has a stored entry and the query for `X`
succeeds with a state `S` whose `Tag.Name` differs from the stored one, the loop
body sends exactly one event, `S` itself, for `X`, and the entry of `X` becomes `S`. -/
theorem change_detection (client : Client) (w : World) (X owner name : String)
    (rest : List String) (S curr : Repository)
    (hsplit : strings_Split X '/' = owner :: name :: rest)
    (hquery : Checker.query owner name (client (calls w.trace).length owner name) = .ok S)
    (hentry : w.tags X = some curr)
    (hname : S.Tag.Name ≠ curr.Tag.Name) :
    ∃ w1, Checker.Run_body client w X = .running w1 ∧
      chan w1.trace = chan w.trace ++ [S] ∧
      sentFor w1.trace = sentFor w.trace ++ [X] ∧
      w1.tags X = some S := by
  refine ⟨_, Run_body_changed client w X owner name rest S curr hsplit hquery hentry hname, ?_⟩
  simp

theorem change_detection_witness :
    ∃ w1, Checker.Run_body (fun _ _ _ => answer "t2" "v2" "d") world1 "o/r" = .running w1 ∧
      chan w1.trace = chan world1.trace ++ [state "t2" "v2" "d"] ∧
      sentFor w1.trace = sentFor world1.trace ++ ["o/r"] ∧
      w1.tags "o/r" = some (state "t2" "v2" "d") :=
  change_detection (fun _ _ _ => answer "t2" "v2" "d") world1 "o/r" "o" "r" []
    (state "t2" "v2" "d") (state "t1" "v1" "d") (by decide) (by decide) (by decide) (by decide)

/-- C2 (baseline suppression): when `X` has no stored entry and the query for `X`
succeeds with `S`, whatever `S` holds, the loop body sends nothing and stores `S`
as the entry of `X`. -/
theorem baseline_suppression (client : Client) (w : World) (X owner name : String)
    (rest : List String) (S : Repository)
    (hsplit : strings_Split X '/' = owner :: name :: rest)
    (hquery : Checker.query owner name (client (calls w.trace).length owner name) = .ok S)
    (hentry : w.tags X = none) :
    ∃ w1, Checker.Run_body client w X = .running w1 ∧
      chan w1.trace = chan w.trace ∧
      sentFor w1.trace = sentFor w.trace ∧
      w1.tags X = some S := by
  refine ⟨_, Run_body_first client w X owner name rest S hsplit hquery hentry, ?_⟩
  simp

theorem baseline_suppression_witness :
    ∃ w1, Checker.Run_body (fun _ _ _ => answer "t1" "v1" "d") world0 "o/r" = .running w1 ∧
      chan w1.trace = chan world0.trace ∧
      sentFor w1.trace = sentFor world0.trace ∧
      w1.tags "o/r" = some (state "t1" "v1" "d") :=
  baseline_suppression (fun _ _ _ => answer "t1" "v1" "d") world0 "o/r" "o" "r" []
    (state "t1" "v1" "d") (by decide) (by decide) (by decide)

/-- C9 (no tag found): on an answer whose list of tag edges is empty,
`Checker.query` returns an error, never a Repository; and the loop body that gets
this answer for `X` goes on to the next identifier with the map unchanged and
nothing sent, recording the call and the warning as for any failure. -/
theorem no_tags_is_failure (owner name : String) (q : Query)
    (hempty : q.Repository.Refs.Edges = []) :
    ∃ e, Checker.query owner name (.ok q) = .err e ∧
      ∀ (client : Client) (w : World) (X : String) (rest : List String),
        strings_Split X '/' = owner :: name :: rest →
        client (calls w.trace).length owner name = .ok q →
        ∃ w1, Checker.Run_body client w X = .running w1 ∧
          w1.tags = w.tags ∧ chan w1.trace = chan w.trace ∧
          w1.trace = w.trace ++ [.query X owner name (.err e), .warn owner name e] := by
  have hq : ∃ e, Checker.query owner name (.ok q) = .err e := by
    unfold Checker.query
    cases hid : q.Repository.ID <;> simp [hid, hempty]
  obtain ⟨e, he⟩ := hq
  refine ⟨e, he, ?_⟩
  intro client w X rest hs hc
  refine ⟨_, Run_body_err client w X owner name rest e hs (by rw [hc]; exact he), ?_⟩
  simp

theorem no_tags_is_failure_witness :
    ∃ e, Checker.query "o" "r" (.ok answerNone) = .err e ∧
      ∀ (client : Client) (w : World) (X : String) (rest : List String),
        strings_Split X '/' = "o" :: "r" :: rest →
        client (calls w.trace).length "o" "r" = .ok answerNone →
        ∃ w1, Checker.Run_body client w X = .running w1 ∧
          w1.tags = w.tags ∧ chan w1.trace = chan w.trace ∧
          w1.trace = w.trace ++ [.query X "o" "r" (.err e), .warn "o" "r" e] :=
  no_tags_is_failure "o" "r" answerNone (by decide)

/-- C10, as stated, fails: on an answer with two tag edges, the older one first,
`Checker.query` returns the first edge, not the last one. -/
theorem query_last_edge_counterexample :
    Checker.query "o" "r" answerTwo = .ok (state "t1" "v1" "d") ∧
      (state "t1" "v1" "d").Tag ≠ { ID := "t2", Name := "v2" } ∧
      ∃ q, answerTwo = .ok q ∧
        q.Repository.Refs.Edges.getLast? = some { Node := { ID := .str "t2", Name := "v2" } } := by
  refine ⟨by decide, by decide, _, rfl, by decide⟩

/-- C10 (amended): on an answer whose repository ID is a string, whose URL pointer
is set and whose list of tag edges starts with an edge `e0` of string tag ID,
`Checker.query` returns a Repository whose Tag has the ID and Name of `e0`, the
first element `Edges[0]`; `e0` is the last element when the list holds one edge. -/
theorem query_first_edge (owner name : String) (q : Query) (repositoryID tagID url : String)
    (e0 : Edge) (rest : List Edge)
    (hid : q.Repository.ID = .str repositoryID)
    (hedges : q.Repository.Refs.Edges = e0 :: rest)
    (htag : e0.Node.ID = .str tagID)
    (hurl : q.Repository.URL = some url) :
    ∃ r, Checker.query owner name (.ok q) = .ok r ∧
      r.Tag = { ID := tagID, Name := e0.Node.Name } ∧
      (rest = [] → q.Repository.Refs.Edges.getLast? = some e0) := by
  refine ⟨{ ID := repositoryID, Name := q.Repository.Name, Owner := owner,
             Description := q.Repository.Description, URL := url,
             Tag := { ID := tagID, Name := e0.Node.Name } }, ?_, rfl, ?_⟩
  · unfold Checker.query
    simp only [hid, hedges, htag, hurl]
  · intro hr
    simp [hedges, hr]

theorem query_first_edge_witness :
    ∃ r, Checker.query "o" "r" (answer "t1" "v1" "d") = .ok r ∧
      r.Tag = { ID := "t1", Name := "v1" } ∧
      (([] : List Edge) = [] →
        List.getLast? ([{ Node := { ID := .str "t1", Name := "v1" } }] : List Edge)
          = some { Node := { ID := .str "t1", Name := "v1" } }) :=
  query_first_edge "o" "r" _ "R1" "t1" "https://h/o/r"
    { Node := { ID := .str "t1", Name := "v1" } } [] rfl rfl rfl rfl

/-- C3 (no-op idempotence): let `X` have the stored entry `curr`, and let every
query made for the owner and name of `X` during `n` cycles succeed with a state
whose `Tag.Name` is the stored one, whatever its other fields.  Then after the `n`
cycles (over any list of identifiers) the entry of `X` is still `curr` and no
event has been sent for `X`; when `X` is the only identifier watched, the `n`
cycles complete, `X` is observed `n` times and the channel receives nothing. -/
theorem same_name_no_event (client : Client) (interval : Nat) (repositories : List String)
    (n : Nat) (w : World) (X owner name : String) (rest : List String) (curr : Repository)
    (hsplit : strings_Split X '/' = owner :: name :: rest)
    (hentry : w.tags X = some curr)
    (hsame : ∀ i, (calls w.trace).length ≤ i →
      i < (calls w.trace).length + n * repositories.length →
      ∃ S, Checker.query owner name (client i owner name) = .ok S ∧
        S.Tag.Name = curr.Tag.Name) :
    (Checker.Run_loop client interval repositories n w).world.tags X = some curr ∧
      (sentFor (Checker.Run_loop client interval repositories n w).world.trace).count X
        = (sentFor w.trace).count X ∧
      (repositories = [X] →
        ∃ w1, Checker.Run_loop client interval [X] n w = .running w1 ∧
          w1.tags = w.tags ∧ chan w1.trace = chan w.trace ∧
          calls w1.trace = calls w.trace ++ List.replicate n (X, owner, name)) := by
  have hP := Run_loop_preserves client
    (fun w1 => (calls w.trace).length ≤ (calls w1.trace).length ∧
      ((calls w1.trace).length ≤ (calls w.trace).length + n * repositories.length →
        w1.tags X = some curr ∧ (sentFor w1.trace).count X = (sentFor w.trace).count X))
    (fun w1 Y h => Run_body_same_name client X owner name rest curr _ _ _ hsplit hsame w1 Y h)
    (fun w1 i h => by simpa using h)
    interval repositories n w ⟨le_refl _, fun _ => ⟨hentry, rfl⟩⟩
  have hc := Run_loop_calls client interval repositories n w
  refine ⟨(hP.2 hc).1, (hP.2 hc).2, ?_⟩
  intro hl
  subst hl
  exact Run_loop_single_same client interval X owner name rest curr hsplit n w hentry
    (fun i h1 h2 => hsame i h1 (by simpa using h2))

theorem same_name_no_event_witness :
    (Checker.Run_loop (fun _ _ _ => answer "t9" "v1" "new text") 60 ["o/r"] 3 world1).world.tags
        "o/r" = some (state "t1" "v1" "d") ∧
      (sentFor (Checker.Run_loop (fun _ _ _ => answer "t9" "v1" "new text") 60 ["o/r"] 3
        world1).world.trace).count "o/r" = (sentFor world1.trace).count "o/r" ∧
      (["o/r"] = ["o/r"] →
        ∃ w1, Checker.Run_loop (fun _ _ _ => answer "t9" "v1" "new text") 60 ["o/r"] 3 world1
            = .running w1 ∧
          w1.tags = world1.tags ∧ chan w1.trace = chan world1.trace ∧
          calls w1.trace = calls world1.trace ++ List.replicate 3 ("o/r", "o", "r")) :=
  same_name_no_event (fun _ _ _ => answer "t9" "v1" "new text") 60 ["o/r"] 3 world1
    "o/r" "o" "r" [] (state "t1" "v1" "d") (by decide) (by decide)
    (fun _ _ _ => ⟨state "t9" "v1" "new text", rfl, rfl⟩)

/-- C8, as stated, fails: "o/r" is stored with tag ID "t1" and name "v1"; a
successful observation with the same name but tag ID "t2" and another description
leaves the stored entry as it was, so the entry is not the state just observed. -/
theorem table_last_observed_counterexample :
    Checker.query "o" "r" (answer "t2" "v1" "e") = .ok (state "t2" "v1" "e") ∧
      (Checker.Run_body (fun _ _ _ => answer "t2" "v1" "e") world1 "o/r").isRunning = true ∧
      (Checker.Run_body (fun _ _ _ => answer "t2" "v1" "e") world1 "o/r").world.tags "o/r"
        = some (state "t1" "v1" "d") ∧
      (Checker.Run_body (fun _ _ _ => answer "t2" "v1" "e") world1 "o/r").world.tags "o/r"
        ≠ some (state "t2" "v1" "e") := by
  refine ⟨by decide, by decide, by decide, by decide⟩

/-- C8 (amended): for every remote and every world, an identifier that has an
entry still has one after any number of cycles, over any list, however they end.
And after a successful observation `S` of `X` the loop body goes on with an entry
for `X` whose `Tag.Name` is that of `S`: the entry is `S` itself when `X` had no
entry or the stored name differs, and it is the old entry, untouched, when the
stored name is the same; that entry is never removed by later cycles, whatever
the remote answers then. -/
theorem table_holds_last_name :
    (∀ (client : Client) (w : World) (interval : Nat) (repositories : List String) (n : Nat)
        (Y : String), (w.tags Y).isSome = true →
      ((Checker.Run_loop client interval repositories n w).world.tags Y).isSome = true) ∧
    ∀ (client : Client) (w : World) (X owner name : String) (rest : List String)
        (S : Repository),
      strings_Split X '/' = owner :: name :: rest →
      Checker.query owner name (client (calls w.trace).length owner name) = .ok S →
      ∃ w1, Checker.Run_body client w X = .running w1 ∧
        (w.tags X = none → w1.tags X = some S) ∧
        (∀ curr, w.tags X = some curr → S.Tag.Name ≠ curr.Tag.Name → w1.tags X = some S) ∧
        (∀ curr, w.tags X = some curr → S.Tag.Name = curr.Tag.Name →
          w1.tags X = some curr) ∧
        (∃ r, w1.tags X = some r ∧ r.Tag.Name = S.Tag.Name) ∧
        ∀ (later : Client) (interval : Nat) (repositories : List String) (n : Nat),
          ((Checker.Run_loop later interval repositories n w1).world.tags X).isSome
            = true := by
  have keep : ∀ (client : Client) (w : World) (interval : Nat) (repositories : List String)
      (n : Nat) (Y : String), (w.tags Y).isSome = true →
      ((Checker.Run_loop client interval repositories n w).world.tags Y).isSome = true := by
    intro client w interval repositories n Y hY
    exact Run_loop_preserves client (fun w1 => (w1.tags Y).isSome = true)
      (fun w1 Z h => Run_body_keeps client Y w1 Z h) (fun w1 i h => h)
      interval repositories n w hY
  refine ⟨keep, ?_⟩
  intro client w X owner name rest S hsplit hquery
  cases ht : w.tags X with
  | none =>
    refine ⟨_, Run_body_first client w X owner name rest S hsplit hquery ht, ?_, ?_, ?_, ?_, ?_⟩
    · intro _; simp
    · intro curr h; cases h
    · intro curr h; cases h
    · exact ⟨S, by simp, rfl⟩
    · intro later interval repositories n
      exact keep later _ interval repositories n X (by simp)
  | some c1 =>
    by_cases hn : S.Tag.Name = c1.Tag.Name
    · refine ⟨_, Run_body_same client w X owner name rest S c1 hsplit hquery ht hn,
        ?_, ?_, ?_, ?_, ?_⟩
      · intro h; cases h
      · intro curr h h2
        cases h
        exact absurd hn h2
      · intro curr h _
        cases h
        exact ht
      · exact ⟨c1, ht, hn.symm⟩
      · intro later interval repositories n
        exact keep later _ interval repositories n X (by simp [ht])
    · refine ⟨_, Run_body_changed client w X owner name rest S c1 hsplit hquery ht hn,
        ?_, ?_, ?_, ?_, ?_⟩
      · intro h; cases h
      · intro curr _ _; simp
      · intro curr h h2
        cases h
        exact absurd h2 hn
      · exact ⟨S, by simp, rfl⟩
      · intro later interval repositories n
        exact keep later _ interval repositories n X (by simp)

theorem table_holds_last_name_witness :
    ((world1.tags "o/r").isSome = true ∧
      ((Checker.Run_loop (fun _ _ _ => .error "remote down") 60 ["o/r", "norepo"] 4
        world1).world.tags "o/r").isSome = true) ∧
    ∃ w1, Checker.Run_body (fun _ _ _ => answer "t2" "v1" "e") world1 "o/r" = .running w1 ∧
      (world1.tags "o/r" = none → w1.tags "o/r" = some (state "t2" "v1" "e")) ∧
      (∀ curr, world1.tags "o/r" = some curr →
        (state "t2" "v1" "e").Tag.Name ≠ curr.Tag.Name →
        w1.tags "o/r" = some (state "t2" "v1" "e")) ∧
      (∀ curr, world1.tags "o/r" = some curr →
        (state "t2" "v1" "e").Tag.Name = curr.Tag.Name → w1.tags "o/r" = some curr) ∧
      (∃ r, w1.tags "o/r" = some r ∧ r.Tag.Name = (state "t2" "v1" "e").Tag.Name) ∧
      ∀ (later : Client) (interval : Nat) (repositories : List String) (n : Nat),
        ((Checker.Run_loop later interval repositories n w1).world.tags "o/r").isSome
          = true :=
  ⟨⟨by decide, table_holds_last_name.1 (fun _ _ _ => .error "remote down") world1 60
      ["o/r", "norepo"] 4 "o/r" (by decide)⟩,
    table_holds_last_name.2 (fun _ _ _ => answer "t2" "v1" "e") world1 "o/r" "o" "r" []
      (state "t2" "v1" "e") (by decide) (by decide)⟩

/-- C7, as stated, fails: an identifier without "/" makes `s[1]` panic; the cycle
over "norepo" and "o/r" does not complete and never queries "o/r". -/
theorem every_identifier_attempted_counterexample :
    strings_Split "norepo" '/' = ["norepo"] ∧
      (Checker.Run_cycle (fun _ _ _ => answer "t1" "v1" "d") 60 ["norepo", "o/r"]
        world0).isRunning = false ∧
      calls (Checker.Run_cycle (fun _ _ _ => answer "t1" "v1" "d") 60 ["norepo", "o/r"]
        world0).world.trace = [] := by
  refine ⟨by decide, by decide, by decide⟩

/-- C7 (amended): for every list of identifiers that each contain a "/", and
every assignment of query outcomes that are returns (a Repository or an error),
one cycle completes and calls the query exactly once for each element of the
list, in list order, with the first two pieces of the identifier split at "/" as
owner and name; no query failure stops the cycle. -/
theorem every_identifier_attempted (client : Client) (interval : Nat)
    (repositories : List String) (w : World)
    (hshape : ∀ X ∈ repositories, '/' ∈ X.data)
    (hreturns : ∀ i o nm, (Checker.query o nm (client i o nm)).returns = true) :
    ∃ w1, Checker.Run_cycle client interval repositories w = .running w1 ∧
      calls w1.trace = calls w.trace
        ++ repositories.map (fun X => (X, (ownerName X).1, (ownerName X).2)) := by
  obtain ⟨w2, h1, h2⟩ := Run_range_calls_all client hreturns repositories hshape w
  refine ⟨{ w2 with trace := w2.trace ++ [.sleep interval] }, ?_, ?_⟩
  · unfold Checker.Run_cycle
    rw [h1]
  · simp [h2]

theorem every_identifier_attempted_witness :
    ∃ w1, Checker.Run_cycle (fun i _ _ => if i = 0 then .error "timeout" else
        answer "t1" "v1" "d") 60 ["a/x", "b/y/z"] world0 = .running w1 ∧
      calls w1.trace = calls world0.trace
        ++ ["a/x", "b/y/z"].map (fun X => (X, (ownerName X).1, (ownerName X).2)) :=
  every_identifier_attempted (fun i _ _ => if i = 0 then .error "timeout" else
      answer "t1" "v1" "d") 60 ["a/x", "b/y/z"] world0 (by decide)
    (fun i _ _ => by by_cases h : i = 0 <;> simp [h, Checker.query, answer, QueryOutcome.returns])

/-- C6 (ordering): in one cycle, for every remote, world and list of
identifiers, the identifiers of the events sent form a subsequence of the list,
however the cycle ends; and when the distinct identifiers `A`, `B`, `C` all have
an entry and a successful result with a changed `Tag.Name`, the cycle over them
sends exactly the three new states, for `A`, `B`, `C` in that order. -/
theorem events_in_list_order :
    (∀ (client : Client) (interval : Nat) (w : World) (repositories : List String),
      ∃ new, (Checker.Run_cycle client interval repositories w).world.trace = w.trace ++ new ∧
        (sentFor new).Sublist repositories ∧ (chan new).length = (sentFor new).length) ∧
    ∀ (client : Client) (interval : Nat) (w : World)
        (A B C oA nA oB nB oC nC : String) (rA rB rC : List String)
        (SA SB SC cA cB cC : Repository),
      A ≠ B → A ≠ C → B ≠ C →
      strings_Split A '/' = oA :: nA :: rA →
      strings_Split B '/' = oB :: nB :: rB →
      strings_Split C '/' = oC :: nC :: rC →
      Checker.query oA nA (client (calls w.trace).length oA nA) = .ok SA →
      Checker.query oB nB (client ((calls w.trace).length + 1) oB nB) = .ok SB →
      Checker.query oC nC (client ((calls w.trace).length + 2) oC nC) = .ok SC →
      w.tags A = some cA → w.tags B = some cB → w.tags C = some cC →
      SA.Tag.Name ≠ cA.Tag.Name → SB.Tag.Name ≠ cB.Tag.Name → SC.Tag.Name ≠ cC.Tag.Name →
      ∃ w1, Checker.Run_cycle client interval [A, B, C] w = .running w1 ∧
        chan w1.trace = chan w.trace ++ [SA, SB, SC] ∧
        sentFor w1.trace = sentFor w.trace ++ [A, B, C] := by
  refine ⟨fun client interval w l => ?_, ?_⟩
  · obtain ⟨new, h1, h2⟩ := Run_cycle_trace client interval l w
    exact ⟨new, h1, h2, chan_length_sentFor new⟩
  intro client interval w A B C oA nA oB nB oC nC rA rB rC SA SB SC cA cB cC
    hAB hAC hBC hsA hsB hsC hqA hqB hqC heA heB heC hnA hnB hnC
  have hbA := Run_body_changed client w A oA nA rA SA cA hsA hqA heA hnA
  have hbB := Run_body_changed client
    { tags := w.tags.set A SA, trace := w.trace ++ [.query A oA nA (.ok SA)] ++ [.send A SA] }
    B oB nB rB SB cB hsB (by simpa using hqB)
    (by simp only; rw [StateTable.set_other _ _ _ _ hAB.symm]; exact heB) hnB
  have hbC := Run_body_changed client
    { tags := (w.tags.set A SA).set B SB
      trace := w.trace ++ [.query A oA nA (.ok SA)] ++ [.send A SA]
        ++ [.query B oB nB (.ok SB)] ++ [.send B SB] }
    C oC nC rC SC cC hsC (by simpa using hqC)
    (by
      simp only
      rw [StateTable.set_other _ _ _ _ hBC.symm, StateTable.set_other _ _ _ _ hAC.symm]
      exact heC) hnC
  unfold Checker.Run_cycle
  rw [Run_range_cons_running client _ _ A _ hbA, Run_range_cons_running client _ _ B _ hbB,
    Run_range_cons_running client _ _ C _ hbC, Run_range_nil]
  exact ⟨_, rfl, by simp, by simp⟩

theorem events_in_list_order_witness :
    (∃ new, (Checker.Run_cycle clientTimeout 60 ["o/r", "norepo", "a/x"] world1).world.trace
        = world1.trace ++ new ∧
      (sentFor new).Sublist ["o/r", "norepo", "a/x"] ∧
      (chan new).length = (sentFor new).length) ∧
    ∃ w1, Checker.Run_cycle (fun _ _ _ => answer "t2" "v2" "d") 60 ["a/x", "b/y", "c/z"] world3
        = .running w1 ∧
      chan w1.trace = chan world3.trace
        ++ [stateOf "a" "t2" "v2", stateOf "b" "t2" "v2", stateOf "c" "t2" "v2"] ∧
      sentFor w1.trace = sentFor world3.trace ++ ["a/x", "b/y", "c/z"] :=
  ⟨events_in_list_order.1 clientTimeout 60 world1 ["o/r", "norepo", "a/x"],
  events_in_list_order.2 (fun _ _ _ => answer "t2" "v2" "d") 60 world3
    "a/x" "b/y" "c/z" "a" "x" "b" "y" "c" "z" [] [] []
    (stateOf "a" "t2" "v2") (stateOf "b" "t2" "v2") (stateOf "c" "t2" "v2")
    (stateOf "a" "t1" "v1") (stateOf "b" "t1" "v1") (stateOf "c" "t1" "v1")
    (by decide) (by decide) (by decide) (by decide) (by decide) (by decide)
    (by decide) (by decide) (by decide) (by decide) (by decide) (by decide)
    (by decide) (by decide) (by decide)⟩

/-- C5 (events follow observations): in a run that starts with an empty map,
take the world `w` reached after `n` complete cycles and a prefix `pre` of the
list in the next cycle, whatever the query outcomes were.  If processing the next
identifier `X` sends an event `S`, then `X` has a stored entry `curr` whose
`Tag.Name` differs from that of `S`, and the trace holds an earlier successful
observation of `X`, the most recent one, whose `Tag.Name` is the stored one. -/
theorem events_follow_observations (client : Client) (c : Checker) (interval : Nat)
    (repositories : List String) (n : Nat)
    (hempty : ∀ m, c.tags = some m → ∀ X, m X = none)
    (wn : World) (hrun : Checker.Run client c interval repositories n = .running wn)
    (pre post : List String) (X : String) (_hlist : repositories = pre ++ X :: post)
    (w : World) (hpre : Checker.Run_range client wn pre = .running w)
    (S : Repository)
    (hpush : chan (Checker.Run_body client w X).world.trace = chan w.trace ++ [S]) :
    ∃ curr last, w.tags X = some curr ∧ S.Tag.Name ≠ curr.Tag.Name ∧
      lastObserved w.trace X = some last ∧ last.Tag.Name = curr.Tag.Name ∧
      ∃ o nm, Action.query X o nm (.ok last) ∈ w.trace := by
  have hwn : Consistent wn := by
    have h := Run_consistent client c interval repositories n hempty
    rw [hrun] at h
    exact h
  have hw : Consistent w := by
    have h := Run_range_preserves client Consistent
      (fun w1 Y h => Run_body_consistent client w1 Y h) wn pre hwn
    rw [hpre] at h
    exact h
  rcases Run_body_cases client w X with ⟨_, hb⟩ | ⟨o, nm, rest, _, ⟨_, hb⟩ | ⟨e, _, hb⟩ |
    ⟨S1, _, _, hb⟩ | ⟨S1, curr, _, ht, hn, hb⟩ | ⟨S1, curr, _, _, _, hb⟩⟩ <;>
    rw [hb] at hpush <;> simp [RunOutcome.world] at hpush
  subst hpush
  have hX := hw X
  rw [ht] at hX
  cases hl : lastObserved w.trace X with
  | none =>
    rw [hl] at hX
    cases hX
  | some last =>
    rw [hl] at hX
    simp only [Option.map_some', Option.some.injEq] at hX
    exact ⟨curr, last, ht, hn, rfl, hX.symm, lastObserved_mem w.trace X last hl⟩

theorem events_follow_observations_witness :
    ∃ curr last,
      (Checker.Run clientV1V2 checker0 60 ["o/r"] 1).world.tags "o/r" = some curr ∧
      (state "t2" "v2" "d").Tag.Name ≠ curr.Tag.Name ∧
      lastObserved (Checker.Run clientV1V2 checker0 60 ["o/r"] 1).world.trace "o/r"
        = some last ∧
      last.Tag.Name = curr.Tag.Name ∧
      ∃ o nm, Action.query "o/r" o nm (.ok last)
        ∈ (Checker.Run clientV1V2 checker0 60 ["o/r"] 1).world.trace :=
  events_follow_observations clientV1V2 checker0 60 ["o/r"] 1
    (fun _ h => Option.noConfusion h)
    (Checker.Run clientV1V2 checker0 60 ["o/r"] 1).world rfl
    [] [] "o/r" rfl
    (Checker.Run clientV1V2 checker0 60 ["o/r"] 1).world rfl
    (state "t2" "v2" "d") (by decide)

/-- C4 (failure isolation): in a cycle over `pre ++ X :: post` in which the query
for `X` fails, processing `X` leaves the whole map, so the entry of `X` too, and
the channel as they were; and the cycle ends with the same map, the same events
in the same order and the same outcome as the cycle over `pre ++ post`, without
`X`, in which the other queries get the same answers. -/
theorem failure_isolation (client : Client) (interval : Nat) (w : World)
    (pre post : List String) (X owner name : String) (rest : List String) (e : QueryError)
    (hsplit : strings_Split X '/' = owner :: name :: rest)
    (hfail : Checker.query owner name
      (client ((calls w.trace).length + pre.length) owner name) = .err e) :
    (∀ w1, Checker.Run_range client w pre = .running w1 →
      ∃ w2, Checker.Run_body client w1 X = .running w2 ∧ w2.tags = w1.tags ∧
        chan w2.trace = chan w1.trace ∧ sentFor w2.trace = sentFor w1.trace) ∧
    (Checker.Run_cycle client interval (pre ++ X :: post) w).isRunning
      = (Checker.Run_cycle (Client.skip client ((calls w.trace).length + pre.length)) interval
          (pre ++ post) w).isRunning ∧
    (Checker.Run_cycle client interval (pre ++ X :: post) w).world.tags
      = (Checker.Run_cycle (Client.skip client ((calls w.trace).length + pre.length)) interval
          (pre ++ post) w).world.tags ∧
    chan (Checker.Run_cycle client interval (pre ++ X :: post) w).world.trace
      = chan (Checker.Run_cycle (Client.skip client ((calls w.trace).length + pre.length))
          interval (pre ++ post) w).world.trace ∧
    sentFor (Checker.Run_cycle client interval (pre ++ X :: post) w).world.trace
      = sentFor (Checker.Run_cycle (Client.skip client ((calls w.trace).length + pre.length))
          interval (pre ++ post) w).world.trace := by
  constructor
  · intro w1 hr
    have hlen := Run_range_running_calls client pre w w1 hr
    refine ⟨_, Run_body_err client w1 X owner name rest e hsplit (by rw [hlen]; exact hfail), ?_⟩
    simp
  · have h := Run_range_skip client w pre post X owner name rest e hsplit hfail
    have h1 := Run_cycle_of_range client interval (pre ++ X :: post) w
    have h2 := Run_cycle_of_range (Client.skip client ((calls w.trace).length + pre.length))
      interval (pre ++ post) w
    refine ⟨?_, ?_, ?_, ?_⟩
    · rw [h1.1, h2.1]; exact h.1
    · rw [h1.2.1, h2.2.1]; exact h.2.1
    · rw [h1.2.2.1, h2.2.2.1]; exact h.2.2.1
    · rw [h1.2.2.2, h2.2.2.2]; exact h.2.2.2

theorem failure_isolation_witness :
    (∀ w1, Checker.Run_range clientTimeout world3 ["a/x"] = .running w1 →
      ∃ w2, Checker.Run_body clientTimeout w1 "b/y" = .running w2 ∧ w2.tags = w1.tags ∧
        chan w2.trace = chan w1.trace ∧ sentFor w2.trace = sentFor w1.trace) ∧
    (Checker.Run_cycle clientTimeout 60 (["a/x"] ++ "b/y" :: ["c/z"]) world3).isRunning
      = (Checker.Run_cycle (Client.skip clientTimeout ((calls world3.trace).length
          + ["a/x"].length)) 60 (["a/x"] ++ ["c/z"]) world3).isRunning ∧
    (Checker.Run_cycle clientTimeout 60 (["a/x"] ++ "b/y" :: ["c/z"]) world3).world.tags
      = (Checker.Run_cycle (Client.skip clientTimeout ((calls world3.trace).length
          + ["a/x"].length)) 60 (["a/x"] ++ ["c/z"]) world3).world.tags ∧
    chan (Checker.Run_cycle clientTimeout 60 (["a/x"] ++ "b/y" :: ["c/z"]) world3).world.trace
      = chan (Checker.Run_cycle (Client.skip clientTimeout ((calls world3.trace).length
          + ["a/x"].length)) 60 (["a/x"] ++ ["c/z"]) world3).world.trace ∧
    sentFor (Checker.Run_cycle clientTimeout 60 (["a/x"] ++ "b/y" :: ["c/z"]) world3).world.trace
      = sentFor (Checker.Run_cycle (Client.skip clientTimeout ((calls world3.trace).length
          + ["a/x"].length)) 60 (["a/x"] ++ ["c/z"]) world3).world.trace :=
  failure_isolation clientTimeout 60 world3 ["a/x"] ["c/z"] "b/y" "b" "y" []
    (.client "timeout") (by decide) (by decide)

end TagChecker
